import Mathlib

/-!
# Localization job runner (src/src/main.js)

A shallow embedding of the actor script.  The script is sequential glue around
external collaborators (file system, git, the localization CLI, the platform
stores).  Every external call is resolved by an oracle field of `World`; the
script itself is the pure function `main`, which returns the calls it made, what
it stored on the platform and how the run ended.

Modelling conventions
* JSON numbers are integers: the script only ever tests a number for being zero.
* The locale codes, the credential, the tone and the placeholders are strings, as
  the input record declares them.  A `targetLanguages` value that is not an array
  is kept as the separate case `TargetLanguages.notAList`.
* Console output is not modelled; it has no influence on control flow.
* `path.join` is string concatenation with a slash (segments are taken verbatim).
-/

namespace LingoActor

/-! ## JavaScript values -/

/-- JSON values, as produced by `JSON.parse` and accepted as actor input.  The
members of an object are its own properties in insertion order. -/
inductive Json where
  | null
  | bool (b : Bool)
  | num (n : Int)
  | str (s : String)
  | arr (items : List Json)
  | obj (members : List (String × Json))

/-- JavaScript truthiness (`!v` is the negation of this). -/
def truthy : Json → Bool
  | .null => false
  | .bool b => b
  | .num n => n != 0
  | .str s => s != ""
  | .arr _ => true
  | .obj _ => true

/-- Number of UTF-16 code units of a character. -/
def utf16Units (c : Char) : Nat :=
  if c.toNat < 65536 then 1 else 2

/-- JavaScript `s.length`: the number of UTF-16 code units of a string. -/
def jsLength (s : String) : Nat :=
  (s.data.map utf16Units).sum

/-- Number of own enumerable string keys of a value: the length of the array that
`Object.keys` returns when it returns.  Primitives other than strings have none,
a string has one index key per code unit, an array one per element. -/
def keyCount : Json → Nat
  | .null => 0
  | .bool _ => 0
  | .num _ => 0
  | .str s => jsLength s
  | .arr items => items.length
  | .obj members => (members.map Prod.fst).eraseDups.length

/-- The message of the TypeError thrown by `Object.keys(null)`. -/
def nullKeysMessage : String := "Cannot convert undefined or null to object"

/-- `Object.keys(v).length`: throws a TypeError on `null`, and returns the number
of own keys otherwise. -/
def objectKeysLength : Json → Except String Nat
  | .null => .error nullKeysMessage
  | v => .ok (keyCount v)

/-- `s.includes(t)` on character lists: `t` occurs in `s` as a contiguous block. -/
def includesChars (t : List Char) : List Char → Bool
  | [] => t.isPrefixOf []
  | c :: s => t.isPrefixOf (c :: s) || includesChars t s

/-- `s.includes(t)` of `String.prototype`. -/
def includes (s t : String) : Bool :=
  includesChars t.data s.data

/-! ## String-keyed records (plain objects used as maps, `process.env`) -/

/-- Property lookup by key. -/
def assocGet {β : Type} (k : String) : List (String × β) → Option β
  | [] => none
  | (k', v) :: rest => if k' = k then some v else assocGet k rest

/-- Data-property assignment: overwrite the value of an existing key in place, or
append a new key. -/
def assocSet {β : Type} (k : String) (v : β) : List (String × β) → List (String × β)
  | [] => [(k, v)]
  | (k', v') :: rest => if k' = k then (k, v) :: rest else (k', v') :: assocSet k v rest

/-- The keys of a record. -/
def assocKeys {β : Type} (l : List (String × β)) : List String :=
  l.map Prod.fst

/-- The prototype link of the `finalOutput` object. -/
inductive Proto where
  /-- `Object.prototype`, the prototype of an object literal. -/
  | objectPrototype
  /-- No prototype. -/
  | null
  /-- An object or array value (whose own chain ends in `Object.prototype`). -/
  | value (v : Json)

/-- An ordinary JavaScript object created by an object literal: its own data
properties and its prototype link.  Serialisation (`JSON.stringify`, used by
`Actor.setValue`) sees the own properties only. -/
structure JsObject where
  props : List (String × Json)
  proto : Proto

/-- The object literal with no properties. -/
def JsObject.empty : JsObject := ⟨[], .objectPrototype⟩

/-- Whether looking up the `__proto__` key along a prototype chain ends at the
accessor of `Object.prototype`.  A parsed JSON object with an own member named
`__proto__` shadows the accessor with a data property. -/
def reachesProtoAccessor : Proto → Bool
  | .objectPrototype => true
  | .null => false
  | .value (.obj members) => (assocGet "__proto__" members).isNone
  | .value _ => true

/-- The setter of `Object.prototype.__proto__`: an object or `null` replaces the
prototype link, any other value is ignored. -/
def setPrototype (o : JsObject) : Json → JsObject
  | .obj members => { o with proto := .value (.obj members) }
  | .arr items => { o with proto := .value (.arr items) }
  | .null => { o with proto := .null }
  | _ => o

/-- The assignment `o[k] = v` on an ordinary object.  Every key other than
`__proto__` ends as an own data property.  The key `__proto__` is an own data
property only if the object already has one or the accessor is out of reach;
otherwise the assignment runs the accessor. -/
def setProperty (o : JsObject) (k : String) (v : Json) : JsObject :=
  if k = "__proto__" then
    if (assocGet k o.props).isNone && reachesProtoAccessor o.proto then
      setPrototype o v
    else
      { o with props := assocSet k v o.props }
  else
    { o with props := assocSet k v o.props }

/-! ## Input, environment and the external world -/

/-- The `targetLanguages` property of the input when it is present. -/
inductive TargetLanguages where
  /-- Any value for which `Array.isArray` is false. -/
  | notAList
  /-- An array of locale codes. -/
  | list (codes : List String)

/-- The input record; `none` stands for a property that is not present. -/
structure Input where
  uiStrings : Option Json
  sourceLanguage : Option String
  targetLanguages : Option TargetLanguages
  tone : Option String
  placeholders : Option (List String)
  lingoApiKey : Option String

/-- Process environment: variable name to value. -/
abbrev Env := List (String × String)

/-- What is written to a file. -/
inductive FileContent where
  /-- The text `JSON.stringify(v, null, 2)`. -/
  | json (v : Json)
  | text (s : String)

/-- One per-locale status record of the dataset. -/
structure StatusRecord where
  language : String
  key : String
  status : String
  message : String

/-- Calls to the outside, in the order the script makes them. -/
inductive Event where
  | rm (path : String)
  | mkdir (path : String)
  | writeFile (path : String) (content : FileContent)
  /-- A subprocess; `env` is `none` when no environment option is passed. -/
  | exec (cmd : String) (env : Option Env)
  | readFile (path : String)
  | setValue (key : String) (value : JsObject)
  | pushData (items : List StatusRecord)

/-- The outside world of one run.  Each oracle gives the result of a call, an
error carrying the message of the thrown `Error`.  `readFile` also takes the
position of the read in the collection loop, so file contents may change while
the loop runs. -/
structure World where
  input : Option Input
  cwd : String
  processEnv : Env
  mkdir : String → Except String Unit
  writeFile : String → FileContent → Except String Unit
  exec : String → Option Env → Except String Unit
  readFile : Nat → String → Except String String
  jsonParse : String → Except String Json
  setValue : String → JsObject → Except String Unit
  pushData : List StatusRecord → Except String Unit

/-- How a run ends: `Actor.fail(message)` or a plain `Actor.exit()`. -/
inductive Outcome where
  | failed (message : String)
  | exited

/-- The observable result of a run: the calls made, the value stored under the
key `OUTPUT`, the records appended to the dataset, and the way the run ended. -/
structure Run where
  events : List Event
  output : Option JsObject
  dataset : Option (List StatusRecord)
  outcome : Outcome

/-! ## The script -/

def TEMP_DIR_NAME : String := "temp_i18n"

def PLACEHOLDER_KEY : String := "YOUR_LINGO_API_KEY"

def API_KEY_VAR : String := "LINGODOTDEV_API_KEY"

def pathJoin (a b : String) : String := a ++ "/" ++ b

def tempDir (cwd : String) : String := pathJoin cwd TEMP_DIR_NAME

def localesDir (cwd : String) : String := pathJoin (tempDir cwd) "locales"

/-- Path of the locale file of `lang`. -/
def langFilePath (cwd lang : String) : String := pathJoin (localesDir cwd) (lang ++ ".json")

def uiStringsMessage : String :=
  "uiStrings is empty or missing. Please provide key-value pairs to localize."

def targetLanguagesMessage : String :=
  "targetLanguages array is empty. Please provide at least one target language code."

/-- The input after destructuring (defaults applied) and validation. -/
structure ValidInput where
  uiStrings : Json
  sourceLanguage : String
  targetLanguages : List String
  tone : String
  placeholders : List String
  lingoApiKey : Option String

/-- Lines 18 to 41: input presence, destructuring with defaults, and the two
validation checks (the credential check only warns). -/
def validate : Option Input → Except String ValidInput
  | none => .error "Input is missing!"
  | some input =>
    match input.uiStrings with
    | none => .error uiStringsMessage
    | some uiStrings =>
      if !truthy uiStrings then .error uiStringsMessage
      else
        match objectKeysLength uiStrings with
        | .error m => .error m
        | .ok n =>
          if n = 0 then .error uiStringsMessage
          else
            match input.targetLanguages.getD (.list []) with
            | .notAList => .error targetLanguagesMessage
            | .list codes =>
              if codes.length = 0 then .error targetLanguagesMessage
              else .ok
                { uiStrings := uiStrings
                  sourceLanguage := input.sourceLanguage.getD "en"
                  targetLanguages := codes
                  tone := input.tone.getD "neutral"
                  placeholders := input.placeholders.getD []
                  lingoApiKey := input.lingoApiKey }

/-- Lines 62 to 71: the context document. -/
def contextContent (tone : String) (placeholders : List String) : String :=
  "\n# Localization Context\n\nThe following UI strings are part of a product interface.\n"
    ++ "Please ensure the translation preserves the following guidelines:\n\n- **Tone**: "
    ++ tone ++ "\n- **Variables**: Preserve all placeholders like "
    ++ ", ".intercalate placeholders
    ++ ".\n- **Terminology**: Use consistent terminology suitable for a software interface.\n    "

/-- Lines 74 to 86: the configuration object of the localization CLI. -/
def i18nConfig (sourceLanguage : String) (targetLanguages : List String) : Json :=
  .obj
    [ ("$schema", .str "https://lingo.dev/schema/i18n.json"),
      ("version", .str "1.10"),
      ("locale", .obj [("source", .str sourceLanguage),
                       ("targets", .arr (targetLanguages.map Json.str))]),
      ("buckets", .obj [("json", .obj [("include",
          .arr [.str (TEMP_DIR_NAME ++ "/locales/[locale].json")])])]) ]

/-- Lines 45 to 89: staging.  The removal of the old scratch directory ignores
its own failure; a failing `mkdir` or `writeFile` ends the stage with the error. -/
def stage (w : World) (v : ValidInput) : List Event × Except String Unit :=
  let sourceFilePath := pathJoin (localesDir w.cwd) (v.sourceLanguage ++ ".json")
  let source := FileContent.json v.uiStrings
  let contextPath := pathJoin w.cwd "LINGO_CONTEXT.md"
  let context := FileContent.text (contextContent v.tone v.placeholders)
  let configPath := pathJoin w.cwd "i18n.json"
  let config := FileContent.json (i18nConfig v.sourceLanguage v.targetLanguages)
  let e1 := [Event.rm (tempDir w.cwd), Event.mkdir (localesDir w.cwd)]
  match w.mkdir (localesDir w.cwd) with
  | .error m => (e1, .error m)
  | .ok _ =>
    let e2 := e1 ++ [Event.writeFile sourceFilePath source]
    match w.writeFile sourceFilePath source with
    | .error m => (e2, .error m)
    | .ok _ =>
      let e3 := e2 ++ [Event.writeFile contextPath context]
      match w.writeFile contextPath context with
      | .error m => (e3, .error m)
      | .ok _ =>
        let e4 := e3 ++ [Event.writeFile configPath config]
        match w.writeFile configPath config with
        | .error m => (e4, .error m)
        | .ok _ => (e4, .ok ())

def gitConfigEmail : String := "git config --global user.email \"actor@apify.com\""

def gitConfigName : String := "git config --global user.name \"Apify Actor\""

def gitStatus : String := "git status"

def gitInit : String := "git init"

def gitAdd : String := "git add ."

def gitCommit : String := "git commit -m \"Prepare translation context\""

/-- The version-control commands of the preflight. -/
def gitCommands : List String :=
  [gitConfigEmail, gitConfigName, gitStatus, gitInit, gitAdd, gitCommit]

/-- Lines 102 to 106: `git add .` followed by the commit whose failure is
swallowed by the inner handler. -/
def gitAddCommit (w : World) : List Event :=
  match w.exec gitAdd none with
  | .error _ => [Event.exec gitAdd none]
  | .ok _ => [Event.exec gitAdd none, Event.exec gitCommit none]

/-- Lines 91 to 109: the version-control preflight.  Every failure is caught by
the outer handler, so the stage has no error result; it returns the commands it
ran. -/
def gitPreflight (w : World) : List Event :=
  match w.exec gitConfigEmail none with
  | .error _ => [Event.exec gitConfigEmail none]
  | .ok _ =>
    match w.exec gitConfigName none with
    | .error _ => [Event.exec gitConfigEmail none, Event.exec gitConfigName none]
    | .ok _ =>
      let e := [Event.exec gitConfigEmail none, Event.exec gitConfigName none,
                Event.exec gitStatus none]
      match w.exec gitStatus none with
      | .ok _ => e ++ gitAddCommit w
      | .error _ =>
        match w.exec gitInit none with
        | .error _ => e ++ [Event.exec gitInit none]
        | .ok _ => e ++ [Event.exec gitInit none] ++ gitAddCommit w

/-- Lines 111 to 114: a copy of the process environment, with the credential
variable assigned when the credential is truthy and does not include the
placeholder text. -/
def buildEnv (processEnv : Env) (lingoApiKey : Option String) : Env :=
  match lingoApiKey with
  | none => processEnv
  | some key =>
    if key != "" && !includes key PLACEHOLDER_KEY then assocSet API_KEY_VAR key processEnv
    else processEnv

def lingoCmd : String := "npx -y lingo.dev run --force"

/-- The error marker stored for a locale whose file could not be used. -/
def translationMissing : Json := .obj [("error", .str "Translation missing")]

/-- State of the collection loop. -/
structure Collected where
  finalOutput : JsObject
  datasetItems : List StatusRecord
  reads : List Event

/-- Lines 148 to 157: the handler of the collection loop. -/
def collectCatch (st : Collected) (lang message : String) : Collected :=
  { st with
    finalOutput := setProperty st.finalOutput lang translationMissing
    datasetItems := st.datasetItems ++
      [{ language := lang, key := "FILE_ERROR", status := "Error", message := message }] }

/-- Lines 134 to 157: one iteration of the collection loop, the `i`-th read. -/
def collectStep (w : World) (i : Nat) (lang : String) (st : Collected) : Collected :=
  let path := langFilePath w.cwd lang
  let st := { st with reads := st.reads ++ [Event.readFile path] }
  match w.readFile i path with
  | .error m => collectCatch st lang m
  | .ok content =>
    match w.jsonParse content with
    | .error m => collectCatch st lang m
    | .ok jsonContent =>
      let st := { st with finalOutput := setProperty st.finalOutput lang jsonContent }
      match objectKeysLength jsonContent with
      | .error m => collectCatch st lang m
      | .ok n =>
        { st with
          datasetItems := st.datasetItems ++
            [{ language := lang, key := "FILE_GENERATED", status := "Success",
               message := "Successfully generated " ++ toString n ++ " keys." }] }

/-- Lines 133 to 158: the loop over the target locales, starting at read `i`. -/
def collectLoop (w : World) : Nat → List String → Collected → Collected
  | _, [], st => st
  | i, lang :: rest, st => collectLoop w (i + 1) rest (collectStep w i lang st)

/-- Lines 130 to 158: result collection. -/
def collect (w : World) (targetLanguages : List String) : Collected :=
  collectLoop w 0 targetLanguages ⟨JsObject.empty, [], []⟩

/-- Lines 160 to 163: publishing, after the events `pre`. -/
def publish (w : World) (pre : List Event) (c : Collected) : Run :=
  let e1 := pre ++ [Event.setValue "OUTPUT" c.finalOutput]
  match w.setValue "OUTPUT" c.finalOutput with
  | .error m => ⟨e1, none, none, .failed m⟩
  | .ok _ =>
    let e2 := e1 ++ [Event.pushData c.datasetItems]
    match w.pushData c.datasetItems with
    | .error m => ⟨e2, some c.finalOutput, none, .failed m⟩
    | .ok _ => ⟨e2, some c.finalOutput, some c.datasetItems, .exited⟩

/-- The whole script: the `try` block of lines 17 to 164 with the handler of
lines 165 to 167, which turns any error that escapes into `Actor.fail`. -/
def main (w : World) : Run :=
  match validate w.input with
  | .error m => ⟨[], none, none, .failed m⟩
  | .ok v =>
    match stage w v with
    | (e1, .error m) => ⟨e1, none, none, .failed m⟩
    | (e1, .ok _) =>
      let env := buildEnv w.processEnv v.lingoApiKey
      let e2 := e1 ++ gitPreflight w ++ [Event.exec lingoCmd (some env)]
      match w.exec lingoCmd (some env) with
      | .error m => ⟨e2, none, none, .failed ("Lingo.dev translation failed: " ++ m)⟩
      | .ok _ =>
        let c := collect w v.targetLanguages
        publish w (e2 ++ c.reads) c

/-! ## Observations on runs -/

/-- Calls that stage files. -/
def Event.isStaging : Event → Bool
  | .rm _ => true
  | .mkdir _ => true
  | .writeFile _ _ => true
  | _ => false

/-- Subprocess calls. -/
def Event.isSubprocess : Event → Bool
  | .exec _ _ => true
  | _ => false

/-- Reads of locale files. -/
def Event.isRead : Event → Bool
  | .readFile _ => true
  | _ => false

/-- Calls to the platform stores. -/
def Event.isPublish : Event → Bool
  | .setValue _ _ => true
  | .pushData _ => true
  | _ => false

/-- The environment of a call of the localization CLI; `none` for any other call. -/
def invocationEnv : Event → Option Env
  | .exec cmd (some env) => if cmd = lingoCmd then some env else none
  | _ => none

/-- The environments passed to the localization CLI during a run, in call order. -/
def invocationEnvs (r : Run) : List Env :=
  r.events.filterMap invocationEnv

/-- The same world with other subprocess results. -/
def World.withExec (w : World) (exec : String → Option Env → Except String Unit) : World :=
  { w with exec := exec }

/-- The value that the `i`-th iteration leaves under the code of `lang` when it
stores an own property: the parsed content of the file, or the error marker when
the read, the parse or the key count throws. -/
def storedValue (w : World) (i : Nat) (lang : String) : Json :=
  match w.readFile i (langFilePath w.cwd lang) with
  | .error _ => translationMissing
  | .ok content =>
    match w.jsonParse content with
    | .error _ => translationMissing
    | .ok .null => translationMissing
    | .ok v => v

/-- What an object holds for a locale code: the own property under the code,
together with the prototype link when the code is `__proto__`. -/
def entryView (lang : String) (o : JsObject) : Option Json × Option Proto :=
  (assocGet lang o.props, if lang = "__proto__" then some o.proto else none)

/-! ## Concrete worlds -/

/-- The source strings of the examples. -/
def helloStrings : Json := .obj [("greeting", .str "Hello")]

/-- Content of a translated locale file. -/
def frenchFile : String := "\x7b\"greeting\": \"Bonjour\"\x7d"

/-- The value of `frenchFile`. -/
def frenchJson : Json := .obj [("greeting", .str "Bonjour")]

/-- A parser for the file contents of the examples. -/
def demoParse (s : String) : Except String Json :=
  if s = "null" then .ok .null
  else if s = frenchFile then .ok frenchJson
  else .error "Unexpected end of JSON input"

/-- An input with the given strings, targets and credential, other fields absent. -/
def demoInput (uiStrings : Json) (targets : List String) (key : Option String) : Input :=
  { uiStrings := some uiStrings, sourceLanguage := none,
    targetLanguages := some (.list targets), tone := none, placeholders := none,
    lingoApiKey := key }

/-- The validated form of `demoInput helloStrings targets key`. -/
def demoValid (targets : List String) (key : Option String) : ValidInput :=
  { uiStrings := helloStrings, sourceLanguage := "en", targetLanguages := targets,
    tone := "neutral", placeholders := [], lingoApiKey := key }

/-- No locale file exists. -/
def noFiles : String → Except String String :=
  fun _ => .error "ENOENT: no such file or directory"

/-- Only the locale file of `lang` exists, with the given content. -/
def fileAt (lang content : String) : String → Except String String :=
  fun path => if path = langFilePath "/app" lang then .ok content else noFiles path

/-- A world in which every call other than reading locale files succeeds. -/
def demoWorld (input : Input) (files : String → Except String String) : World :=
  { input := some input, cwd := "/app", processEnv := [("PATH", "/usr/bin")],
    mkdir := fun _ => .ok (), writeFile := fun _ _ => .ok (), exec := fun _ _ => .ok (),
    readFile := fun _ => files, jsonParse := demoParse,
    setValue := fun _ _ => .ok (), pushData := fun _ => .ok () }

/-- The only target is the code `__proto__`; the CLI produced no file. -/
def protoOnlyWorld : World := demoWorld (demoInput helloStrings ["__proto__"] none) noFiles

/-- The file of `fr` holds the JSON text `null`. -/
def nullFileWorld : World := demoWorld (demoInput helloStrings ["fr"] none) (fileAt "fr" "null")

/-- Targets `fr` and `__proto__`; the CLI produced no file. -/
def missingFilesWorld : World :=
  demoWorld (demoInput helloStrings ["fr", "__proto__"] none) noFiles

/-- The only target is the code `__proto__`, and its file is well formed. -/
def protoFileWorld : World :=
  demoWorld (demoInput helloStrings ["__proto__"] none) (fileAt "__proto__" frenchFile)

/-- The first rejected input of the specification: no source strings. -/
def emptyStringsWorld : World := demoWorld (demoInput (.obj []) ["fr"] none) noFiles

/-- The second rejected input of the specification: no target locale. -/
def emptyTargetsWorld : World := demoWorld (demoInput (.obj [("a", .str "b")]) [] none) noFiles

/-- Subprocess results where only the localization CLI fails. -/
def cliFails : String → Option Env → Except String Unit :=
  fun cmd _ => if cmd = lingoCmd then .error "Command failed: npx -y lingo.dev run --force"
    else .ok ()

/-- The localization CLI exits with an error. -/
def cliFailureWorld : World :=
  (demoWorld (demoInput helloStrings ["fr"] none) noFiles).withExec cliFails

/-- Targets `fr` and `de`; the CLI produced the file of `fr` only. -/
def partialWorld : World :=
  demoWorld (demoInput helloStrings ["fr", "de"] none) (fileAt "fr" frenchFile)

/-- As `partialWorld`, with `fr` requested twice. -/
def repeatedWorld : World :=
  demoWorld (demoInput helloStrings ["fr", "de", "fr"] none) (fileAt "fr" frenchFile)

/-- Targets `fr` and `de`; the CLI produced no file. -/
def allMissingWorld : World := demoWorld (demoInput helloStrings ["fr", "de"] none) noFiles

/-- The status records of the run in `repeatedWorld`. -/
def repeatedRecords : List StatusRecord :=
  [⟨"fr", "FILE_GENERATED", "Success", "Successfully generated 1 keys."⟩,
    ⟨"de", "FILE_ERROR", "Error", "ENOENT: no such file or directory"⟩,
    ⟨"fr", "FILE_GENERATED", "Success", "Successfully generated 1 keys."⟩]

/-- The credential is the placeholder text itself. -/
def placeholderWorld : World :=
  demoWorld (demoInput helloStrings ["fr"] (some "YOUR_LINGO_API_KEY")) noFiles

/-- The credential contains the placeholder text without being equal to it. -/
def embeddedPlaceholderWorld : World :=
  demoWorld (demoInput helloStrings ["fr"] (some "demo-YOUR_LINGO_API_KEY")) noFiles

/-- Subprocess results where every command without an environment option (the
version-control commands) fails and every other command succeeds. -/
def gitFails : String → Option Env → Except String Unit :=
  fun _ env =>
    match env with
    | none => .error "fatal: git is not installed"
    | some _ => .ok ()

/-! ## Records -/

theorem assocGet_assocSet_same {β : Type} (k : String) (v : β) (l : List (String × β)) :
    assocGet k (assocSet k v l) = some v := by
  induction l with
  | nil => simp [assocSet, assocGet]
  | cons p rest ih =>
    obtain ⟨k', v'⟩ := p
    by_cases h : k' = k
    · simp [assocSet, assocGet, h]
    · simp [assocSet, assocGet, h, ih]

theorem assocGet_assocSet_ne {β : Type} {k k' : String} (h : k ≠ k') (v : β)
    (l : List (String × β)) : assocGet k' (assocSet k v l) = assocGet k' l := by
  induction l with
  | nil => simp [assocSet, assocGet, h]
  | cons p rest ih =>
    obtain ⟨k₀, v₀⟩ := p
    by_cases h₀ : k₀ = k
    · subst h₀
      simp [assocSet, assocGet, h]
    · by_cases h₁ : k₀ = k'
      · subst h₁
        simp [assocSet, assocGet, h₀]
      · simp [assocSet, assocGet, h₀, h₁, ih]

theorem mem_assocKeys_assocSet {β : Type} (k k' : String) (v : β) (l : List (String × β)) :
    k' ∈ assocKeys (assocSet k v l) ↔ k' = k ∨ k' ∈ assocKeys l := by
  induction l with
  | nil => simp [assocSet, assocKeys]
  | cons p rest ih =>
    obtain ⟨k₀, v₀⟩ := p
    by_cases h₀ : k₀ = k
    · subst h₀
      simp [assocSet, assocKeys]
    · simp only [assocKeys] at ih
      simp [assocSet, assocKeys, h₀, ih]
      tauto

theorem mem_assocKeys_iff {β : Type} (k : String) (l : List (String × β)) :
    k ∈ assocKeys l ↔ (assocGet k l).isSome = true := by
  induction l with
  | nil => simp [assocKeys, assocGet]
  | cons p rest ih =>
    obtain ⟨k₀, v₀⟩ := p
    simp only [assocKeys] at ih
    by_cases h₀ : k₀ = k
    · simp [assocKeys, assocGet, h₀]
    · have h₁ : ¬ k = k₀ := fun h => h₀ h.symm
      simp [assocKeys, assocGet, h₀, h₁, ih]

/-! ## Substring test -/

theorem includesChars_iff (t s : List Char) : includesChars t s = true ↔ t <:+: s := by
  induction s with
  | nil => simp [includesChars, List.isPrefixOf_iff_prefix]
  | cons c s ih =>
    simp [includesChars, List.infix_cons_iff, ih]

theorem includes_iff (s t : String) : includes s t = true ↔ t.data <:+: s.data :=
  includesChars_iff t.data s.data

/-! ## Property assignment -/

theorem setPrototype_props (o : JsObject) (v : Json) : (setPrototype o v).props = o.props := by
  cases v <;> rfl

theorem setProperty_get_same (o : JsObject) {k : String} (hk : k ≠ "__proto__") (v : Json) :
    assocGet k (setProperty o k v).props = some v := by
  simp [setProperty, hk, assocGet_assocSet_same]

theorem setProperty_get_ne (o : JsObject) {k k' : String} (h : k ≠ k') (v : Json) :
    assocGet k' (setProperty o k v).props = assocGet k' o.props := by
  unfold setProperty
  split
  · split
    · rw [setPrototype_props]
    · exact assocGet_assocSet_ne h v o.props
  · exact assocGet_assocSet_ne h v o.props

theorem setProperty_keys (o : JsObject) {k : String} (hk : k ≠ "__proto__") (v : Json)
    (k' : String) :
    k' ∈ assocKeys (setProperty o k v).props ↔ k' = k ∨ k' ∈ assocKeys o.props := by
  simp [setProperty, hk, mem_assocKeys_assocSet]

theorem entryView_set_ne (o : JsObject) {k lang : String} (h : k ≠ lang) (v : Json) :
    entryView lang (setProperty o k v) = entryView lang o := by
  unfold entryView
  rw [setProperty_get_ne o h v]
  by_cases hl : lang = "__proto__"
  · have hk : k ≠ "__proto__" := fun e => h (e.trans hl.symm)
    simp [setProperty, hk]
  · simp [hl]

theorem entryView_set_same {o o' : JsObject} {lang : String}
    (h : entryView lang o = entryView lang o') (v : Json) :
    entryView lang (setProperty o lang v) = entryView lang (setProperty o' lang v) := by
  by_cases hl : lang = "__proto__"
  · subst hl
    simp only [entryView, if_true, Prod.mk.injEq, Option.some.injEq] at h
    obtain ⟨hp, hq⟩ := h
    unfold setProperty
    simp only [if_true, hp, hq]
    split
    · simp only [entryView, setPrototype_props, hp, if_true, Prod.mk.injEq, Option.some.injEq,
        true_and]
      cases v <;> simp [setPrototype, hq]
    · simp [entryView, assocGet_assocSet_same, hq]
  · simp [entryView, hl, setProperty_get_same _ hl]

/-! ## The collection loop -/

theorem collectStep_datasetItems (w : World) (i : Nat) (lang : String) (st : Collected) :
    ∃ r : StatusRecord, (collectStep w i lang st).datasetItems = st.datasetItems ++ [r] ∧
      r.language = lang ∧
      ((r.key = "FILE_GENERATED" ∧ r.status = "Success") ∨
        (r.key = "FILE_ERROR" ∧ r.status = "Error")) := by
  unfold collectStep
  simp only []
  split
  · exact ⟨_, rfl, rfl, Or.inr ⟨rfl, rfl⟩⟩
  · split
    · exact ⟨_, rfl, rfl, Or.inr ⟨rfl, rfl⟩⟩
    · split
      · exact ⟨_, rfl, rfl, Or.inr ⟨rfl, rfl⟩⟩
      · exact ⟨_, rfl, rfl, Or.inl ⟨rfl, rfl⟩⟩

theorem collectStep_reads (w : World) (i : Nat) (lang : String) (st : Collected) :
    (collectStep w i lang st).reads = st.reads ++ [Event.readFile (langFilePath w.cwd lang)] := by
  unfold collectStep
  simp only []
  split
  · rfl
  · split
    · rfl
    · split <;> rfl

theorem collectLoop_languages (w : World) (targets : List String) :
    ∀ (i : Nat) (st : Collected),
      (collectLoop w i targets st).datasetItems.map StatusRecord.language
        = st.datasetItems.map StatusRecord.language ++ targets := by
  induction targets with
  | nil => intro i st; simp [collectLoop]
  | cons lang rest ih =>
    intro i st
    obtain ⟨r, hr, hl, _⟩ := collectStep_datasetItems w i lang st
    rw [collectLoop, ih, hr]
    simp [hl]

theorem collectLoop_reads (w : World) (targets : List String) :
    ∀ (i : Nat) (st : Collected),
      (collectLoop w i targets st).reads
        = st.reads ++ targets.map (fun lang => Event.readFile (langFilePath w.cwd lang)) := by
  induction targets with
  | nil => intro i st; simp [collectLoop]
  | cons lang rest ih =>
    intro i st
    rw [collectLoop, ih, collectStep_reads]
    simp

theorem collectStep_entry (w : World) (i : Nat) {lang : String} (hl : lang ≠ "__proto__")
    (st : Collected) :
    assocGet lang (collectStep w i lang st).finalOutput.props = some (storedValue w i lang) := by
  unfold collectStep storedValue
  simp only []
  cases w.readFile i (langFilePath w.cwd lang) with
  | error m => simp [collectCatch, setProperty_get_same _ hl]
  | ok content =>
    simp only []
    cases w.jsonParse content with
    | error m => simp [collectCatch, setProperty_get_same _ hl]
    | ok v => cases v <;> simp [objectKeysLength, collectCatch, setProperty_get_same _ hl]

theorem collectStep_entryView_ne (w : World) (i : Nat) {lang k : String} (h : lang ≠ k)
    (st : Collected) :
    entryView k (collectStep w i lang st).finalOutput = entryView k st.finalOutput := by
  unfold collectStep
  simp only []
  split
  · simp [collectCatch, entryView_set_ne _ h]
  · split
    · simp [collectCatch, entryView_set_ne _ h]
    · split <;> simp [collectCatch, entryView_set_ne _ h]

theorem collectStep_entryView_same (w w' : World) (i : Nat) (lang : String)
    (hcwd : w'.cwd = w.cwd) (hparse : w'.jsonParse = w.jsonParse)
    (hread : w'.readFile i (langFilePath w.cwd lang) = w.readFile i (langFilePath w.cwd lang))
    {st st' : Collected} (h : entryView lang st.finalOutput = entryView lang st'.finalOutput) :
    entryView lang (collectStep w i lang st).finalOutput
      = entryView lang (collectStep w' i lang st').finalOutput := by
  unfold collectStep
  simp only [hcwd, hparse, hread]
  split
  · exact entryView_set_same h _
  · split
    · exact entryView_set_same h _
    · split
      · exact entryView_set_same (entryView_set_same h _) _
      · exact entryView_set_same h _

theorem collectLoop_entryView (w w' : World) (lang : String)
    (hcwd : w'.cwd = w.cwd) (hparse : w'.jsonParse = w.jsonParse)
    (hread : ∀ i, w'.readFile i (langFilePath w.cwd lang)
      = w.readFile i (langFilePath w.cwd lang))
    (targets : List String) :
    ∀ (i : Nat) (st st' : Collected),
      entryView lang st.finalOutput = entryView lang st'.finalOutput →
      entryView lang (collectLoop w i targets st).finalOutput
        = entryView lang (collectLoop w' i targets st').finalOutput := by
  induction targets with
  | nil => intro i st st' h; simpa [collectLoop] using h
  | cons l rest ih =>
    intro i st st' h
    rw [collectLoop, collectLoop]
    apply ih
    by_cases hl : l = lang
    · subst hl
      exact collectStep_entryView_same w w' i l hcwd hparse (hread i) h
    · rw [collectStep_entryView_ne w i hl, collectStep_entryView_ne w' i hl]
      exact h

/-! ## Validation -/

theorem objectKeysLength_of_truthy {v : Json} (h : truthy v = true) :
    objectKeysLength v = .ok (keyCount v) := by
  cases v <;> simp_all [truthy, objectKeysLength]

theorem validate_error_of_no_keys (input : Input)
    (h : input.uiStrings = none ∨ ∃ v, input.uiStrings = some v ∧ keyCount v = 0) :
    validate (some input) = .error uiStringsMessage := by
  rcases h with h | ⟨v, hv, hk⟩
  · simp [validate, h]
  · by_cases ht : truthy v = true
    · simp [validate, hv, ht, objectKeysLength_of_truthy ht, hk]
    · simp [validate, hv, ht]

theorem validate_error_of_no_targets (input : Input)
    (h : input.targetLanguages = none ∨ input.targetLanguages = some .notAList ∨
      input.targetLanguages = some (.list [])) :
    validate (some input) = .error uiStringsMessage ∨
      validate (some input) = .error targetLanguagesMessage := by
  cases hu : input.uiStrings with
  | none => exact Or.inl (validate_error_of_no_keys input (Or.inl hu))
  | some v =>
    by_cases ht : truthy v = true
    · by_cases hk : keyCount v = 0
      · exact Or.inl (validate_error_of_no_keys input (Or.inr ⟨v, hu, hk⟩))
      · right
        rcases h with h | h | h <;>
          simp [validate, hu, ht, objectKeysLength_of_truthy ht, hk, h]
    · left
      simp [validate, hu, ht]

/-- C4. When `uiStrings` is absent or has no keys, or `targetLanguages` is absent, not
a list or empty, the run is marked failed by validation: the script makes no call
at all (no file staged, no subprocess), and stores neither `OUTPUT` nor records. -/
theorem validation_failure_stops_run (w : World) (input : Input) (hin : w.input = some input)
    (h : input.uiStrings = none ∨ (∃ v, input.uiStrings = some v ∧ keyCount v = 0) ∨
      input.targetLanguages = none ∨ input.targetLanguages = some .notAList ∨
      input.targetLanguages = some (.list [])) :
    ∃ m, main w = ⟨[], none, none, .failed m⟩ ∧
      (m = uiStringsMessage ∨ m = targetLanguagesMessage) := by
  have hv : validate w.input = .error uiStringsMessage ∨
      validate w.input = .error targetLanguagesMessage := by
    rw [hin]
    rcases h with h | h | h
    · exact Or.inl (validate_error_of_no_keys input (Or.inl h))
    · exact Or.inl (validate_error_of_no_keys input (Or.inr h))
    · exact validate_error_of_no_targets input h
  rcases hv with hv | hv
  · exact ⟨uiStringsMessage, by simp [main, hv], Or.inl rfl⟩
  · exact ⟨targetLanguagesMessage, by simp [main, hv], Or.inr rfl⟩

/-! ## Staging and preflight calls -/

theorem stage_events_staging (w : World) (v : ValidInput) :
    ∀ e ∈ (stage w v).1, e.isStaging = true := by
  unfold stage
  simp only []
  split
  · simp [Event.isStaging]
  · split
    · simp [Event.isStaging]
    · split
      · simp [Event.isStaging]
      · split <;> simp [Event.isStaging]

theorem gitAddCommit_events (w : World) :
    ∀ e ∈ gitAddCommit w, ∃ c, c ∈ gitCommands ∧ e = Event.exec c none := by
  unfold gitAddCommit
  split <;> simp [gitCommands]

theorem gitPreflight_events (w : World) :
    ∀ e ∈ gitPreflight w, ∃ c, c ∈ gitCommands ∧ e = Event.exec c none := by
  have hac := gitAddCommit_events w
  unfold gitPreflight
  simp only []
  split
  · simp [gitCommands]
  · split
    · simp [gitCommands]
    · split
      · intro e he
        rcases List.mem_append.1 he with he | he
        · revert he; simp [gitCommands]; tauto
        · exact hac e he
      · split
        · simp [gitCommands]
        · intro e he
          rcases List.mem_append.1 he with he | he
          · revert he; simp [gitCommands]; tauto
          · exact hac e he

/-! ## Shape of a run -/

theorem collect_reads (w : World) (targets : List String) :
    (collect w targets).reads
      = targets.map (fun lang => Event.readFile (langFilePath w.cwd lang)) := by
  simp [collect, collectLoop_reads]

theorem collect_languages (w : World) (targets : List String) :
    (collect w targets).datasetItems.map StatusRecord.language = targets := by
  simp [collect, collectLoop_languages]

theorem main_of_stage_error {w : World} {v : ValidInput} {m : String}
    (hv : validate w.input = .ok v) (hs : (stage w v).2 = .error m) :
    main w = ⟨(stage w v).1, none, none, .failed m⟩ := by
  cases hst : stage w v with
  | mk e1 r =>
    rw [hst] at hs
    simp only at hs
    subst hs
    simp only [main, hv, hst]

theorem main_of_invoke_error {w : World} {v : ValidInput} {m : String}
    (hv : validate w.input = .ok v) (hs : (stage w v).2 = .ok ())
    (hx : w.exec lingoCmd (some (buildEnv w.processEnv v.lingoApiKey)) = .error m) :
    main w = ⟨(stage w v).1 ++ gitPreflight w
        ++ [Event.exec lingoCmd (some (buildEnv w.processEnv v.lingoApiKey))],
      none, none, .failed ("Lingo.dev translation failed: " ++ m)⟩ := by
  cases hst : stage w v with
  | mk e1 r =>
    rw [hst] at hs
    simp only at hs
    subst hs
    simp only [main, hv, hst, hx]

theorem main_of_invoke_ok {w : World} {v : ValidInput}
    (hv : validate w.input = .ok v) (hs : (stage w v).2 = .ok ())
    (hx : w.exec lingoCmd (some (buildEnv w.processEnv v.lingoApiKey)) = .ok ()) :
    main w = publish w ((stage w v).1 ++ gitPreflight w
        ++ [Event.exec lingoCmd (some (buildEnv w.processEnv v.lingoApiKey))]
        ++ (collect w v.targetLanguages).reads) (collect w v.targetLanguages) := by
  cases hst : stage w v with
  | mk e1 r =>
    rw [hst] at hs
    simp only at hs
    subst hs
    simp only [main, hv, hst, hx]

/-- The calls of a published run are the calls before publishing followed by the
store calls. -/
theorem publish_events (w : World) (pre : List Event) (c : Collected) :
    (publish w pre c).events = pre ++ [Event.setValue "OUTPUT" c.finalOutput] ∨
    (publish w pre c).events
      = pre ++ [Event.setValue "OUTPUT" c.finalOutput] ++ [Event.pushData c.datasetItems] := by
  unfold publish
  simp only []
  split
  · exact Or.inl rfl
  · split
    · exact Or.inr rfl
    · exact Or.inr rfl

theorem unit_result_cases (r : Except String Unit) : (∃ m, r = .error m) ∨ r = .ok () := by
  cases r with
  | error m => exact Or.inl ⟨m, rfl⟩
  | ok u => exact Or.inr rfl

/-- Every subprocess call that carries an environment is the call of the
localization CLI, made after a successful staging with the built environment. -/
theorem exec_with_env_mem_main {w : World} {v : ValidInput} {c : String} {env : Env}
    (hv : validate w.input = .ok v) (h : Event.exec c (some env) ∈ (main w).events) :
    (stage w v).2 = .ok () ∧ c = lingoCmd ∧ env = buildEnv w.processEnv v.lingoApiKey := by
  have hstg := stage_events_staging w v
  have hgit := gitPreflight_events w
  have key : ∀ l : List Event,
      Event.exec c (some env) ∈ (stage w v).1 ++ gitPreflight w
        ++ [Event.exec lingoCmd (some (buildEnv w.processEnv v.lingoApiKey))] ++ l →
      (∀ e ∈ l, e.isSubprocess = false) →
      c = lingoCmd ∧ env = buildEnv w.processEnv v.lingoApiKey := by
    intro l hl hno
    simp only [List.mem_append, List.mem_singleton] at hl
    rcases hl with ((hl | hl) | hl) | hl
    · have := hstg _ hl
      simp [Event.isStaging] at this
    · obtain ⟨c', _, hc'⟩ := hgit _ hl
      simp at hc'
    · simpa using hl
    · have := hno _ hl
      simp [Event.isSubprocess] at this
  rcases unit_result_cases (stage w v).2 with ⟨m, hs⟩ | hs
  · rw [main_of_stage_error hv hs] at h
    have := hstg _ h
    simp [Event.isStaging] at this
  · refine ⟨hs, ?_⟩
    rcases unit_result_cases (w.exec lingoCmd (some (buildEnv w.processEnv v.lingoApiKey)))
      with ⟨m, hx⟩ | hx
    · rw [main_of_invoke_error hv hs hx] at h
      exact key [] (by simpa using h) (by simp)
    · rw [main_of_invoke_ok hv hs hx] at h
      rcases publish_events w _ (collect w v.targetLanguages) with he | he
      · rw [he, collect_reads, List.append_assoc] at h
        refine key _ h ?_
        intro e he'
        simp only [List.mem_append, List.mem_map, List.mem_singleton] at he'
        rcases he' with ⟨l, _, rfl⟩ | rfl <;> rfl
      · rw [he, collect_reads, List.append_assoc, List.append_assoc] at h
        refine key _ h ?_
        intro e he'
        simp only [List.mem_append, List.mem_map, List.mem_singleton] at he'
        rcases he' with ⟨l, _, rfl⟩ | rfl | rfl <;> rfl

/-- C5. For a valid input, when the call of the localization CLI is made and fails
with message `m`, the run is marked failed with the wrapped message, no locale file
is read back, and neither `OUTPUT` nor any status record is stored. -/
theorem cli_failure_fails_run (w : World) (v : ValidInput) (env : Env) (m : String)
    (hv : validate w.input = .ok v)
    (hcall : Event.exec lingoCmd (some env) ∈ (main w).events)
    (hfail : w.exec lingoCmd (some env) = .error m) :
    (main w).outcome = .failed ("Lingo.dev translation failed: " ++ m) ∧
      (main w).output = none ∧ (main w).dataset = none ∧
      ∀ e ∈ (main w).events, e.isRead = false ∧ e.isPublish = false := by
  obtain ⟨hs, -, henv⟩ := exec_with_env_mem_main hv hcall
  subst henv
  rw [main_of_invoke_error hv hs hfail]
  refine ⟨rfl, rfl, rfl, ?_⟩
  intro e he
  simp only [List.mem_append, List.mem_singleton] at he
  rcases he with (he | he) | he
  · have := stage_events_staging w v e he
    cases e <;> simp_all [Event.isStaging, Event.isRead, Event.isPublish]
  · obtain ⟨c, -, rfl⟩ := gitPreflight_events w e he
    exact ⟨rfl, rfl⟩
  · subst he
    exact ⟨rfl, rfl⟩

/-- The calls made before collection, other than the call of the CLI, carry no
invocation environment. -/
theorem invocationEnv_of_staging {e : Event} (h : e.isStaging = true) : invocationEnv e = none := by
  cases e <;> simp_all [Event.isStaging, invocationEnv]

theorem filterMap_invocationEnv_stage (w : World) (v : ValidInput) :
    (stage w v).1.filterMap invocationEnv = [] :=
  List.filterMap_eq_nil_iff.2 fun e he => invocationEnv_of_staging (stage_events_staging w v e he)

theorem filterMap_invocationEnv_git (w : World) :
    (gitPreflight w).filterMap invocationEnv = [] := by
  refine List.filterMap_eq_nil_iff.2 fun e he => ?_
  obtain ⟨c, -, rfl⟩ := gitPreflight_events w e he
  rfl

theorem filterMap_invocationEnv_reads (w : World) (targets : List String) :
    (collect w targets).reads.filterMap invocationEnv = [] := by
  refine List.filterMap_eq_nil_iff.2 fun e he => ?_
  rw [collect_reads] at he
  obtain ⟨l, -, rfl⟩ := List.mem_map.1 he
  rfl

theorem invocationEnvs_main {w : World} {v : ValidInput}
    (hv : validate w.input = .ok v) (hs : (stage w v).2 = .ok ()) :
    invocationEnvs (main w) = [buildEnv w.processEnv v.lingoApiKey] := by
  unfold invocationEnvs
  rcases unit_result_cases (w.exec lingoCmd (some (buildEnv w.processEnv v.lingoApiKey)))
    with ⟨m, hx⟩ | hx
  · rw [main_of_invoke_error hv hs hx]
    simp [filterMap_invocationEnv_stage, filterMap_invocationEnv_git, invocationEnv]
  · rw [main_of_invoke_ok hv hs hx]
    rcases publish_events w _ (collect w v.targetLanguages) with he | he <;>
      rw [he] <;>
      simp [filterMap_invocationEnv_stage, filterMap_invocationEnv_git,
        filterMap_invocationEnv_reads, invocationEnv]

theorem main_events_invocation {w : World} {v : ValidInput}
    (hv : validate w.input = .ok v) (hs : (stage w v).2 = .ok ()) :
    ∃ post, (main w).events = (stage w v).1 ++ gitPreflight w
      ++ Event.exec lingoCmd (some (buildEnv w.processEnv v.lingoApiKey)) :: post := by
  rcases unit_result_cases (w.exec lingoCmd (some (buildEnv w.processEnv v.lingoApiKey)))
    with ⟨m, hx⟩ | hx
  · exact ⟨[], by rw [main_of_invoke_error hv hs hx]⟩
  · rw [main_of_invoke_ok hv hs hx]
    rcases publish_events w _ (collect w v.targetLanguages) with he | he
    · exact ⟨(collect w v.targetLanguages).reads
          ++ [Event.setValue "OUTPUT" (collect w v.targetLanguages).finalOutput],
        by rw [he]; simp⟩
    · exact ⟨(collect w v.targetLanguages).reads
          ++ [Event.setValue "OUTPUT" (collect w v.targetLanguages).finalOutput]
          ++ [Event.pushData (collect w v.targetLanguages).datasetItems],
        by rw [he]; simp⟩

/-! ## Environment -/

theorem buildEnv_other (processEnv : Env) (key : Option String) {name : String}
    (h : name ≠ API_KEY_VAR) :
    assocGet name (buildEnv processEnv key) = assocGet name processEnv := by
  unfold buildEnv
  split
  · rfl
  · split
    · exact assocGet_assocSet_ne (Ne.symm h) _ _
    · rfl

theorem buildEnv_injects (processEnv : Env) {key : String} (hne : key ≠ "")
    (hinc : ¬ PLACEHOLDER_KEY.data <:+: key.data) :
    assocGet API_KEY_VAR (buildEnv processEnv (some key)) = some key := by
  have h : includes key PLACEHOLDER_KEY = false := by
    cases hb : includes key PLACEHOLDER_KEY with
    | false => rfl
    | true => exact absurd ((includes_iff _ _).1 hb) hinc
  simp [buildEnv, hne, h, assocGet_assocSet_same]

theorem buildEnv_unchanged (processEnv : Env) (key : Option String)
    (h : key = none ∨ key = some "" ∨
      ∃ k, key = some k ∧ PLACEHOLDER_KEY.data <:+: k.data) :
    buildEnv processEnv key = processEnv := by
  rcases h with h | h | ⟨k, h, hk⟩
  · simp [buildEnv, h]
  · simp [buildEnv, h]
  · simp [buildEnv, h, (includes_iff _ _).2 hk]

/-! ## Locale codes other than `__proto__`

For every locale code other than `__proto__` the collection loop behaves as a map
update, and the statements below hold for all inputs. -/

theorem collectStep_get_ne (w : World) (i : Nat) {lang k : String} (h : lang ≠ k)
    (st : Collected) :
    assocGet k (collectStep w i lang st).finalOutput.props = assocGet k st.finalOutput.props :=
  congrArg Prod.fst (collectStep_entryView_ne w i h st)

theorem collectStep_keys (w : World) (i : Nat) {lang : String} (hl : lang ≠ "__proto__")
    (st : Collected) (k : String) :
    k ∈ assocKeys (collectStep w i lang st).finalOutput.props
      ↔ k = lang ∨ k ∈ assocKeys st.finalOutput.props := by
  unfold collectStep
  simp only []
  cases w.readFile i (langFilePath w.cwd lang) with
  | error m => simp [collectCatch, setProperty_keys _ hl]
  | ok content =>
    simp only []
    cases w.jsonParse content with
    | error m => simp [collectCatch, setProperty_keys _ hl]
    | ok v => cases v <;> simp [objectKeysLength, collectCatch, setProperty_keys _ hl]

theorem collectLoop_keys (w : World) (targets : List String) (h : "__proto__" ∉ targets) :
    ∀ (i : Nat) (st : Collected) (k : String),
      k ∈ assocKeys (collectLoop w i targets st).finalOutput.props
        ↔ k ∈ assocKeys st.finalOutput.props ∨ k ∈ targets := by
  induction targets with
  | nil => intro i st k; simp [collectLoop]
  | cons lang rest ih =>
    intro i st k
    have hl : lang ≠ "__proto__" := fun e => h (by simp [e])
    have hr : "__proto__" ∉ rest := fun e => h (List.mem_cons_of_mem _ e)
    rw [collectLoop, ih hr, collectStep_keys w i hl]
    simp only [List.mem_cons]
    tauto

/-- The key set of the collected output is the set of requested locale codes,
provided `__proto__` is not requested. -/
theorem collect_keys (w : World) (targets : List String) (h : "__proto__" ∉ targets)
    (k : String) :
    k ∈ assocKeys (collect w targets).finalOutput.props ↔ k ∈ targets := by
  unfold collect
  rw [collectLoop_keys w targets h]
  simp [JsObject.empty, assocKeys]

theorem collectLoop_entry (w : World) {lang : String} {e : Json} (hl : lang ≠ "__proto__")
    (hst : ∀ i, storedValue w i lang = e) (targets : List String) :
    ∀ (i : Nat) (st : Collected),
      (lang ∈ targets ∨ assocGet lang st.finalOutput.props = some e) →
      assocGet lang (collectLoop w i targets st).finalOutput.props = some e := by
  induction targets with
  | nil =>
    intro i st h
    rcases h with h | h
    · simp at h
    · simpa [collectLoop] using h
  | cons l rest ih =>
    intro i st h
    rw [collectLoop]
    apply ih
    by_cases hl' : l = lang
    · subst hl'
      right
      rw [collectStep_entry w i hl, hst]
    · rcases h with h | h
      · rcases List.mem_cons.1 h with h | h
        · exact absurd h.symm hl'
        · exact Or.inl h
      · right
        rw [collectStep_get_ne w i hl']
        exact h

/-- The entry of a requested locale other than `__proto__` whose file gives the same
stored value at every read is that value. -/
theorem collect_entry (w : World) {lang : String} {e : Json} (hl : lang ≠ "__proto__")
    (targets : List String) (hm : lang ∈ targets) (hst : ∀ i, storedValue w i lang = e) :
    assocGet lang (collect w targets).finalOutput.props = some e :=
  collectLoop_entry w hl hst targets 0 _ (Or.inl hm)

/-- Round trip for a requested locale other than `__proto__`: a file that reads and
parses to a value other than `null` is stored as that value. -/
theorem collect_entry_of_parsed (w : World) {lang : String} (hl : lang ≠ "__proto__")
    (targets : List String) (hm : lang ∈ targets) (content : String) (v : Json)
    (hread : ∀ i, w.readFile i (langFilePath w.cwd lang) = .ok content)
    (hparse : w.jsonParse content = .ok v) (hv : v ≠ .null) :
    assocGet lang (collect w targets).finalOutput.props = some v := by
  refine collect_entry w hl targets hm fun i => ?_
  unfold storedValue
  rw [hread i]
  cases v with
  | null => exact absurd rfl hv
  | bool b => simp only [hparse]
  | num n => simp only [hparse]
  | str s => simp only [hparse]
  | arr items => simp only [hparse]
  | obj members => simp only [hparse]

/-- Missing, unreadable or malformed file of a requested locale other than
`__proto__`: the entry is the error marker. -/
theorem collect_entry_of_failure (w : World) {lang : String} (hl : lang ≠ "__proto__")
    (targets : List String) (hm : lang ∈ targets)
    (hfail : ∀ i, (∃ m, w.readFile i (langFilePath w.cwd lang) = .error m) ∨
      ∃ content m, w.readFile i (langFilePath w.cwd lang) = .ok content ∧
        w.jsonParse content = .error m) :
    assocGet lang (collect w targets).finalOutput.props = some translationMissing := by
  refine collect_entry w hl targets hm fun i => ?_
  unfold storedValue
  rcases hfail i with ⟨m, h⟩ | ⟨content, m, h, hp⟩
  · rw [h]
  · rw [h]
    simp only [hp]

theorem collectStep_record (w : World) (i : Nat) (lang : String) (st : Collected) :
    ∃ r : StatusRecord, (collectStep w i lang st).datasetItems = st.datasetItems ++ [r] ∧
      r.language = lang ∧
      ((r.key = "FILE_GENERATED" ∧ r.status = "Success" ∧
          ∃ content v, w.readFile i (langFilePath w.cwd lang) = .ok content ∧
            w.jsonParse content = .ok v ∧ storedValue w i lang = v) ∨
        (r.key = "FILE_ERROR" ∧ r.status = "Error" ∧
          storedValue w i lang = translationMissing)) := by
  unfold collectStep storedValue
  simp only []
  cases hr : w.readFile i (langFilePath w.cwd lang) with
  | error m => exact ⟨_, rfl, rfl, Or.inr ⟨rfl, rfl, rfl⟩⟩
  | ok content =>
    simp only []
    cases hp : w.jsonParse content with
    | error m => exact ⟨_, rfl, rfl, Or.inr ⟨rfl, rfl, rfl⟩⟩
    | ok v =>
      cases v with
      | null => exact ⟨_, rfl, rfl, Or.inr ⟨rfl, rfl, rfl⟩⟩
      | bool b => exact ⟨_, rfl, rfl, Or.inl ⟨rfl, rfl, content, _, rfl, hp, rfl⟩⟩
      | num n => exact ⟨_, rfl, rfl, Or.inl ⟨rfl, rfl, content, _, rfl, hp, rfl⟩⟩
      | str s => exact ⟨_, rfl, rfl, Or.inl ⟨rfl, rfl, content, _, rfl, hp, rfl⟩⟩
      | arr items => exact ⟨_, rfl, rfl, Or.inl ⟨rfl, rfl, content, _, rfl, hp, rfl⟩⟩
      | obj members => exact ⟨_, rfl, rfl, Or.inl ⟨rfl, rfl, content, _, rfl, hp, rfl⟩⟩

theorem collectLoop_records (w : World) (targets : List String) :
    ∀ (i : Nat) (st : Collected) (r : StatusRecord),
      r ∈ (collectLoop w i targets st).datasetItems →
      r ∈ st.datasetItems ∨ (r.language ∈ targets ∧ ∃ j,
        ((r.key = "FILE_GENERATED" ∧ r.status = "Success" ∧
            ∃ content v, w.readFile j (langFilePath w.cwd r.language) = .ok content ∧
              w.jsonParse content = .ok v ∧ storedValue w j r.language = v) ∨
          (r.key = "FILE_ERROR" ∧ r.status = "Error" ∧
            storedValue w j r.language = translationMissing))) := by
  induction targets with
  | nil => intro i st r h; exact Or.inl (by simpa [collectLoop] using h)
  | cons lang rest ih =>
    intro i st r h
    rw [collectLoop] at h
    rcases ih (i + 1) _ r h with h | ⟨hm, j, hj⟩
    · obtain ⟨r₀, hr₀, hlang, hcase⟩ := collectStep_record w i lang st
      rw [hr₀] at h
      rcases List.mem_append.1 h with h | h
      · exact Or.inl h
      · have hr : r = r₀ := by simpa using h
        subst hr
        subst hlang
        exact Or.inr ⟨List.mem_cons_self _ _, i, hcase⟩
    · exact Or.inr ⟨List.mem_cons_of_mem _ hm, j, hj⟩

/-- Agreement of the two outputs for a locale other than `__proto__` whose file does
not change during collection: each of its records is a success record and the entry
is the parsed content, or an error record and the entry is the error marker. -/
theorem records_agree_with_output (w : World) (targets : List String) {lang : String}
    (hl : lang ≠ "__proto__")
    (hstatic : ∀ i j, w.readFile i (langFilePath w.cwd lang)
      = w.readFile j (langFilePath w.cwd lang))
    (r : StatusRecord) (hr : r ∈ (collect w targets).datasetItems) (hlang : r.language = lang) :
    (r.key = "FILE_GENERATED" ∧ r.status = "Success" ∧
        ∃ content v, w.readFile 0 (langFilePath w.cwd lang) = .ok content ∧
          w.jsonParse content = .ok v ∧
          assocGet lang (collect w targets).finalOutput.props = some v) ∨
      (r.key = "FILE_ERROR" ∧ r.status = "Error" ∧
        assocGet lang (collect w targets).finalOutput.props = some translationMissing) := by
  have hsv : ∀ i j, storedValue w i lang = storedValue w j lang := by
    intro i j
    unfold storedValue
    rw [hstatic i j]
  rcases collectLoop_records w targets 0 _ r hr with h | ⟨hm, j, hj⟩
  · simp at h
  · rw [hlang] at hm hj
    rcases hj with ⟨hk, hs, content, v, hread, hparse, hv⟩ | ⟨hk, hs, hv⟩
    · refine Or.inl ⟨hk, hs, content, v, (hstatic 0 j).trans hread, hparse, ?_⟩
      exact collect_entry w hl targets hm fun i => (hsv i j).trans hv
    · refine Or.inr ⟨hk, hs, ?_⟩
      exact collect_entry w hl targets hm fun i => (hsv i j).trans hv

/-! ## Publishing -/

theorem pre_events_not_publish (w : World) (v : ValidInput) :
    ∀ e ∈ (stage w v).1 ++ gitPreflight w
        ++ [Event.exec lingoCmd (some (buildEnv w.processEnv v.lingoApiKey))]
        ++ (collect w v.targetLanguages).reads, e.isPublish = false := by
  intro e he
  simp only [List.mem_append, List.mem_singleton] at he
  rcases he with ((he | he) | he) | he
  · have := stage_events_staging w v e he
    cases e <;> simp_all [Event.isStaging, Event.isPublish]
  · obtain ⟨c, -, rfl⟩ := gitPreflight_events w e he
    rfl
  · subst he
    rfl
  · rw [collect_reads] at he
    obtain ⟨l, -, rfl⟩ := List.mem_map.1 he
    rfl

theorem publish_results (w : World) (pre : List Event) (c : Collected) :
    (publish w pre c).outcome = (publish w [] c).outcome ∧
      (publish w pre c).output = (publish w [] c).output ∧
      (publish w pre c).dataset = (publish w [] c).dataset := by
  unfold publish
  simp only []
  split
  · exact ⟨rfl, rfl, rfl⟩
  · split <;> exact ⟨rfl, rfl, rfl⟩

theorem collectLoop_withExec (w : World) (exec : String → Option Env → Except String Unit)
    (targets : List String) :
    ∀ (i : Nat) (st : Collected),
      collectLoop (w.withExec exec) i targets st = collectLoop w i targets st := by
  induction targets with
  | nil => intro i st; rfl
  | cons lang rest ih =>
    intro i st
    rw [collectLoop, collectLoop, ih]
    rfl

/-! ## The claims -/

/-- C1 fails for the locale code `__proto__`: with `targetLanguages = ["__proto__"]`
the input passes validation and the run ends normally, but the assignment
`finalOutput[lang] = ...` replaces the prototype of `finalOutput` instead of adding a
property, so the stored `OUTPUT` has no key at all. -/
theorem proto_locale_missing_from_output :
    validate protoOnlyWorld.input = .ok (demoValid ["__proto__"] none) ∧
      (main protoOnlyWorld).outcome = .exited ∧
      (main protoOnlyWorld).output = some ⟨[], .value translationMissing⟩ ∧
      (main protoOnlyWorld).output.map (fun o => assocKeys o.props) = some [] :=
  ⟨rfl, rfl, rfl, rfl⟩

/-- C2 fails for a locale file whose content is the JSON text `null`: the file is
readable and parses to `null`, yet `Object.keys(null)` throws inside the same `try`
block, so the entry of the locale is the error marker and its record is an error
record. -/
theorem null_file_stored_as_missing :
    nullFileWorld.readFile 0 (langFilePath nullFileWorld.cwd "fr") = .ok "null" ∧
      nullFileWorld.jsonParse "null" = .ok .null ∧
      (main nullFileWorld).output = some ⟨[("fr", translationMissing)], .objectPrototype⟩ ∧
      (main nullFileWorld).dataset
        = some [⟨"fr", "FILE_ERROR", "Error", "Cannot convert undefined or null to object"⟩] :=
  ⟨rfl, rfl, rfl, rfl⟩

/-- C3 fails for the locale code `__proto__`: with no output file at all, the locale
`fr` gets the error marker, while `__proto__` gets its error record but no entry in
the stored `OUTPUT`. -/
theorem missing_proto_locale_has_no_entry :
    (main missingFilesWorld).dataset
        = some [⟨"fr", "FILE_ERROR", "Error", "ENOENT: no such file or directory"⟩,
            ⟨"__proto__", "FILE_ERROR", "Error", "ENOENT: no such file or directory"⟩] ∧
      (main missingFilesWorld).output
        = some ⟨[("fr", translationMissing)], .value translationMissing⟩ ∧
      (main missingFilesWorld).output.map (fun o => assocGet "__proto__" o.props)
        = some none :=
  ⟨rfl, rfl, rfl⟩


/-- C4 at the two rejected inputs of the specification: empty `uiStrings` with
target `fr`, and one source string with an empty target list. -/
theorem validation_failure_stops_run_witness :
    (emptyStringsWorld.input = some (demoInput (.obj []) ["fr"] none) ∧
      ∃ m, main emptyStringsWorld = ⟨[], none, none, .failed m⟩ ∧
        (m = uiStringsMessage ∨ m = targetLanguagesMessage)) ∧
    (emptyTargetsWorld.input = some (demoInput (.obj [("a", .str "b")]) [] none) ∧
      ∃ m, main emptyTargetsWorld = ⟨[], none, none, .failed m⟩ ∧
        (m = uiStringsMessage ∨ m = targetLanguagesMessage)) :=
  ⟨⟨rfl, validation_failure_stops_run emptyStringsWorld _ rfl
      (Or.inr (Or.inl ⟨.obj [], rfl, rfl⟩))⟩,
    ⟨rfl, validation_failure_stops_run emptyTargetsWorld _ rfl
      (Or.inr (Or.inr (Or.inr (Or.inr rfl))))⟩⟩

/-- C5 at a run whose CLI call fails with the message of a non-zero exit. -/
theorem cli_failure_fails_run_witness :
    validate cliFailureWorld.input = .ok (demoValid ["fr"] none) ∧
      cliFailureWorld.exec lingoCmd (some [("PATH", "/usr/bin")])
        = .error "Command failed: npx -y lingo.dev run --force" ∧
      (main cliFailureWorld).outcome = .failed
        ("Lingo.dev translation failed: " ++ "Command failed: npx -y lingo.dev run --force") ∧
      (main cliFailureWorld).output = none ∧ (main cliFailureWorld).dataset = none ∧
      ∀ e ∈ (main cliFailureWorld).events, e.isRead = false ∧ e.isPublish = false :=
  ⟨rfl, rfl,
    cli_failure_fails_run cliFailureWorld (demoValid ["fr"] none) [("PATH", "/usr/bin")]
      "Command failed: npx -y lingo.dev run --force" rfl
      (by
        have h : (main cliFailureWorld).events
            = (stage cliFailureWorld (demoValid ["fr"] none)).1 ++ gitPreflight cliFailureWorld
              ++ [Event.exec lingoCmd (some [("PATH", "/usr/bin")])] := rfl
        rw [h]
        simp)
      rfl⟩

/-- C6. For a valid input with successful staging, CLI call and store writes, the run
ends without failure and stores both `OUTPUT` and the status records, whatever the
reads of the locale files return.  The entry of a locale in `OUTPUT` depends on the
reads of its own file only: it is the same in every world that agrees on them. -/
theorem locale_failures_do_not_fail_run (w : World) (v : ValidInput)
    (hv : validate w.input = .ok v) (hs : (stage w v).2 = .ok ())
    (hx : w.exec lingoCmd (some (buildEnv w.processEnv v.lingoApiKey)) = .ok ())
    (hset : w.setValue "OUTPUT" (collect w v.targetLanguages).finalOutput = .ok ())
    (hpush : w.pushData (collect w v.targetLanguages).datasetItems = .ok ()) :
    (main w).outcome = .exited ∧
      (main w).output = some (collect w v.targetLanguages).finalOutput ∧
      (main w).dataset = some (collect w v.targetLanguages).datasetItems ∧
      ∀ (w' : World) (lang : String), w'.cwd = w.cwd → w'.jsonParse = w.jsonParse →
        (∀ i, w'.readFile i (langFilePath w.cwd lang)
          = w.readFile i (langFilePath w.cwd lang)) →
        assocGet lang (collect w' v.targetLanguages).finalOutput.props
          = assocGet lang (collect w v.targetLanguages).finalOutput.props := by
  rw [main_of_invoke_ok hv hs hx]
  refine ⟨?_, ?_, ?_, ?_⟩
  · simp [publish, hset, hpush]
  · simp [publish, hset, hpush]
  · simp [publish, hset, hpush]
  · intro w' lang hcwd hparse hread
    have h := collectLoop_entryView w w' lang hcwd hparse hread v.targetLanguages 0
      ⟨JsObject.empty, [], []⟩ ⟨JsObject.empty, [], []⟩ rfl
    exact (congrArg Prod.fst h).symm

/-- C6 at a run in which the file of `de` is missing and the file of `fr` is present,
compared with the run in which no file is present. -/
theorem locale_failures_do_not_fail_run_witness :
    (main partialWorld).outcome = .exited ∧
      (main partialWorld).output
        = some ⟨[("fr", frenchJson), ("de", translationMissing)], .objectPrototype⟩ ∧
      (main partialWorld).dataset = some (collect partialWorld ["fr", "de"]).datasetItems ∧
      assocGet "de" (collect allMissingWorld ["fr", "de"]).finalOutput.props
        = assocGet "de" (collect partialWorld ["fr", "de"]).finalOutput.props :=
  have h := locale_failures_do_not_fail_run partialWorld (demoValid ["fr", "de"] none)
    rfl rfl rfl rfl rfl
  ⟨h.1, h.2.1, h.2.2.1, h.2.2.2 allMissingWorld "de" rfl rfl (fun _ => rfl)⟩

/-- C7. When the status records are pushed, there is one record per element of
`targetLanguages`, and the languages of the records are `targetLanguages` itself,
element for element in input order. -/
theorem status_records_follow_targets (w : World) (items : List StatusRecord)
    (h : Event.pushData items ∈ (main w).events) :
    ∃ v, validate w.input = .ok v ∧ items.length = v.targetLanguages.length ∧
      items.map StatusRecord.language = v.targetLanguages := by
  cases hv : validate w.input with
  | error m => simp [main, hv] at h
  | ok v =>
    have hpre := pre_events_not_publish w v
    have hitems : items = (collect w v.targetLanguages).datasetItems := by
      rcases unit_result_cases (stage w v).2 with ⟨m, hs⟩ | hs
      · rw [main_of_stage_error hv hs] at h
        have := stage_events_staging w v _ h
        simp [Event.isStaging] at this
      · rcases unit_result_cases
          (w.exec lingoCmd (some (buildEnv w.processEnv v.lingoApiKey))) with ⟨m, hx⟩ | hx
        · rw [main_of_invoke_error hv hs hx] at h
          have := hpre _ (List.mem_append_left _ h)
          simp [Event.isPublish] at this
        · rw [main_of_invoke_ok hv hs hx] at h
          rcases publish_events w _ (collect w v.targetLanguages) with he | he
          · rw [he] at h
            rcases List.mem_append.1 h with h | h
            · have := hpre _ h
              simp [Event.isPublish] at this
            · simp at h
          · rw [he] at h
            rcases List.mem_append.1 h with h | h
            · rcases List.mem_append.1 h with h | h
              · have := hpre _ h
                simp [Event.isPublish] at this
              · simp at h
            · simpa using h
    have hl := collect_languages w v.targetLanguages
    refine ⟨v, rfl, ?_, ?_⟩
    · rw [hitems, ← List.length_map _ StatusRecord.language, hl]
    · rw [hitems, hl]

/-- C7 at a run with a repeated locale code and a missing file. -/
theorem status_records_follow_targets_witness :
    Event.pushData repeatedRecords ∈ (main repeatedWorld).events ∧
      ∃ v, validate repeatedWorld.input = .ok v ∧
        repeatedRecords.length = v.targetLanguages.length ∧
        repeatedRecords.map StatusRecord.language = v.targetLanguages :=
  have hmem : Event.pushData repeatedRecords ∈ (main repeatedWorld).events := by
    have h : (main repeatedWorld).events
        = (stage repeatedWorld (demoValid ["fr", "de", "fr"] none)).1
          ++ gitPreflight repeatedWorld
          ++ [Event.exec lingoCmd (some [("PATH", "/usr/bin")])]
          ++ (collect repeatedWorld ["fr", "de", "fr"]).reads
          ++ [Event.setValue "OUTPUT" (collect repeatedWorld ["fr", "de", "fr"]).finalOutput]
          ++ [Event.pushData repeatedRecords] := rfl
    rw [h]
    simp
  ⟨hmem, status_records_follow_targets repeatedWorld _ hmem⟩

theorem validate_lingoApiKey {input : Input} {v : ValidInput}
    (hv : validate (some input) = .ok v) : v.lingoApiKey = input.lingoApiKey := by
  unfold validate at hv
  simp only [] at hv
  split at hv
  · cases hv
  · split at hv
    · cases hv
    · split at hv
      · cases hv
      · split at hv
        · cases hv
        · split at hv
          · cases hv
          · split at hv
            · cases hv
            · cases hv
              rfl

/-- C8 (amended). After a valid input and a successful staging the localization CLI
is called once, with an environment that agrees with the process environment on
every variable other than `LINGODOTDEV_API_KEY`.  That variable is set to the
credential when the credential is a non-empty string that does not contain the text
`YOUR_LINGO_API_KEY`; when the credential is absent, empty or contains that text
(the placeholder itself included), the environment is the process environment
unchanged. -/
theorem credential_injected_unless_placeholder_text (w : World) (v : ValidInput)
    (hv : validate w.input = .ok v) (hs : (stage w v).2 = .ok ()) :
    invocationEnvs (main w) = [buildEnv w.processEnv v.lingoApiKey] ∧
      (∀ input, w.input = some input → v.lingoApiKey = input.lingoApiKey) ∧
      (∀ name, name ≠ API_KEY_VAR →
        assocGet name (buildEnv w.processEnv v.lingoApiKey) = assocGet name w.processEnv) ∧
      (∀ key, v.lingoApiKey = some key → key ≠ "" → ¬ PLACEHOLDER_KEY.data <:+: key.data →
        assocGet API_KEY_VAR (buildEnv w.processEnv v.lingoApiKey) = some key) ∧
      ((v.lingoApiKey = none ∨ v.lingoApiKey = some "" ∨
          ∃ key, v.lingoApiKey = some key ∧ PLACEHOLDER_KEY.data <:+: key.data) →
        buildEnv w.processEnv v.lingoApiKey = w.processEnv) := by
  refine ⟨invocationEnvs_main hv hs, ?_, ?_, ?_, ?_⟩
  · intro input hin
    rw [hin] at hv
    exact validate_lingoApiKey hv
  · intro name hname
    exact buildEnv_other _ _ hname
  · intro key hkey hne hinc
    rw [hkey]
    exact buildEnv_injects _ hne hinc
  · intro h
    exact buildEnv_unchanged _ _ h

/-- C8 (amended) at a credential equal to the placeholder: the CLI is called with
the process environment unchanged. -/
theorem credential_injected_unless_placeholder_text_witness :
    validate placeholderWorld.input = .ok (demoValid ["fr"] (some "YOUR_LINGO_API_KEY")) ∧
      (stage placeholderWorld (demoValid ["fr"] (some "YOUR_LINGO_API_KEY"))).2 = .ok () ∧
      invocationEnvs (main placeholderWorld)
        = [buildEnv placeholderWorld.processEnv (some "YOUR_LINGO_API_KEY")] ∧
      buildEnv placeholderWorld.processEnv (some "YOUR_LINGO_API_KEY")
        = placeholderWorld.processEnv :=
  have h := credential_injected_unless_placeholder_text placeholderWorld
    (demoValid ["fr"] (some "YOUR_LINGO_API_KEY")) rfl rfl
  ⟨rfl, rfl, h.1, h.2.2.2.2 (Or.inr (Or.inr ⟨_, rfl, List.infix_refl _⟩))⟩

/-- C8 as stated fails: the credential `demo-YOUR_LINGO_API_KEY` is provided and is
not the placeholder value, yet the CLI is called with the process environment
unchanged, in which `LINGODOTDEV_API_KEY` is not set. -/
theorem embedded_placeholder_not_injected :
    validate embeddedPlaceholderWorld.input
        = .ok (demoValid ["fr"] (some "demo-YOUR_LINGO_API_KEY")) ∧
      "demo-YOUR_LINGO_API_KEY" ≠ PLACEHOLDER_KEY ∧
      invocationEnvs (main embeddedPlaceholderWorld) = [[("PATH", "/usr/bin")]] ∧
      assocGet API_KEY_VAR [("PATH", "/usr/bin")] = (none : Option String) :=
  ⟨rfl, by decide, rfl, rfl⟩

/-- C9. For a valid input with successful staging, replace the results of the
subprocess calls by any others that agree on the call of the localization CLI (so
the version-control commands succeed or fail in any combination).  The CLI is still
called right after the preflight, with the same environment, and the run ends the
same way with the same stored results. -/
theorem preflight_never_aborts (w : World) (v : ValidInput)
    (exec : String → Option Env → Except String Unit)
    (hv : validate w.input = .ok v) (hs : (stage w v).2 = .ok ())
    (hsame : ∀ env, exec lingoCmd (some env) = w.exec lingoCmd (some env)) :
    (∃ post, (main (w.withExec exec)).events
        = (stage w v).1 ++ gitPreflight (w.withExec exec)
          ++ Event.exec lingoCmd (some (buildEnv w.processEnv v.lingoApiKey)) :: post) ∧
      (∀ e ∈ gitPreflight (w.withExec exec), ∃ c, c ∈ gitCommands ∧ e = Event.exec c none) ∧
      invocationEnvs (main (w.withExec exec)) = [buildEnv w.processEnv v.lingoApiKey] ∧
      invocationEnvs (main w) = [buildEnv w.processEnv v.lingoApiKey] ∧
      (main (w.withExec exec)).outcome = (main w).outcome ∧
      (main (w.withExec exec)).output = (main w).output ∧
      (main (w.withExec exec)).dataset = (main w).dataset := by
  have hv' : validate (w.withExec exec).input = .ok v := hv
  have hs' : (stage (w.withExec exec) v).2 = .ok () := hs
  have hc : collect (w.withExec exec) v.targetLanguages = collect w v.targetLanguages :=
    collectLoop_withExec w exec v.targetLanguages 0 _
  refine ⟨main_events_invocation hv' hs', gitPreflight_events _, invocationEnvs_main hv' hs',
    invocationEnvs_main hv hs, ?_⟩
  rcases unit_result_cases (w.exec lingoCmd (some (buildEnv w.processEnv v.lingoApiKey)))
    with ⟨m, hx⟩ | hx
  · have hx' : (w.withExec exec).exec lingoCmd
        (some (buildEnv (w.withExec exec).processEnv v.lingoApiKey)) = .error m :=
      (hsame _).trans hx
    rw [main_of_invoke_error hv hs hx, main_of_invoke_error hv' hs' hx']
    exact ⟨rfl, rfl, rfl⟩
  · have hx' : (w.withExec exec).exec lingoCmd
        (some (buildEnv (w.withExec exec).processEnv v.lingoApiKey)) = .ok () :=
      (hsame _).trans hx
    rw [main_of_invoke_ok hv hs hx, main_of_invoke_ok hv' hs' hx', hc]
    obtain ⟨h1, h2, h3⟩ := publish_results w ((stage w v).1 ++ gitPreflight w
      ++ [Event.exec lingoCmd (some (buildEnv w.processEnv v.lingoApiKey))]
      ++ (collect w v.targetLanguages).reads) (collect w v.targetLanguages)
    obtain ⟨h1', h2', h3'⟩ := publish_results (w.withExec exec)
      ((stage (w.withExec exec) v).1 ++ gitPreflight (w.withExec exec)
      ++ [Event.exec lingoCmd (some (buildEnv (w.withExec exec).processEnv v.lingoApiKey))]
      ++ (collect w v.targetLanguages).reads) (collect w v.targetLanguages)
    rw [h1, h2, h3, h1', h2', h3']
    exact ⟨rfl, rfl, rfl⟩

/-- C9 at a run in which every version-control command fails, compared with the run
in which every command succeeds. -/
theorem preflight_never_aborts_witness :
    validate partialWorld.input = .ok (demoValid ["fr", "de"] none) ∧
      gitPreflight (partialWorld.withExec gitFails) = [Event.exec gitConfigEmail none] ∧
      invocationEnvs (main (partialWorld.withExec gitFails)) = [[("PATH", "/usr/bin")]] ∧
      invocationEnvs (main partialWorld) = [[("PATH", "/usr/bin")]] ∧
      (main (partialWorld.withExec gitFails)).outcome = (main partialWorld).outcome ∧
      (main (partialWorld.withExec gitFails)).output = (main partialWorld).output ∧
      (main (partialWorld.withExec gitFails)).dataset = (main partialWorld).dataset :=
  have h := preflight_never_aborts partialWorld (demoValid ["fr", "de"] none) gitFails
    rfl rfl (fun _ => rfl)
  ⟨rfl, rfl, h.2.2.1, h.2.2.2.1, h.2.2.2.2⟩

/-- C10 fails for the locale code `__proto__`: its file is well formed and does not
change, its status record is a success record, yet the stored `OUTPUT` has no entry
for it (the parsed content became the prototype of `finalOutput`). -/
theorem proto_locale_success_without_entry :
    (∀ i j path, protoFileWorld.readFile i path = protoFileWorld.readFile j path) ∧
      (main protoFileWorld).dataset
        = some [⟨"__proto__", "FILE_GENERATED", "Success", "Successfully generated 1 keys."⟩] ∧
      (main protoFileWorld).output = some ⟨[], .value frenchJson⟩ ∧
      (main protoFileWorld).output.map (fun o => assocGet "__proto__" o.props) = some none :=
  ⟨fun _ _ _ => rfl, rfl, rfl, rfl⟩

end LingoActor
